import Mathlib

/-!
Shallow embedding of the `idunsh` sources (main.rs, util.rs, c64ultimate.rs)
of the idun-defaults repository, together with theorems settling claims
about the natural-language specification.

Bytes and Unicode code points are modelled as `Nat`.
-/

/-! ## UTF-8 decoding

Models Rust `str::from_utf8` / `String::from_utf8` and
`Utf8Error::valid_up_to`.  `utf8Step` classifies one UTF-8 sequence at the
head of a byte list exactly as Rust's validator does (rejecting overlong
encodings, surrogates and values above U+10FFFF).  The recursive drivers
use an explicit fuel argument (instantiated with the list length by the
`utf8Decode` / `utf8Greedy` wrappers) so that the recursion is structural.
-/

/-- A UTF-8 continuation byte: 0x80..=0xBF. -/
def isCont (b : Nat) : Bool :=
  decide (0x80 ≤ b) && decide (b ≤ 0xBF)

/-- Constraint on the first continuation byte, which depends on the lead
byte, exactly as in Rust's UTF-8 validator. -/
def cont1ok (lead b : Nat) : Bool :=
  if lead = 0xE0 then decide (0xA0 ≤ b) && decide (b ≤ 0xBF)
  else if lead = 0xED then decide (0x80 ≤ b) && decide (b ≤ 0x9F)
  else if lead = 0xF0 then decide (0x90 ≤ b) && decide (b ≤ 0xBF)
  else if lead = 0xF4 then decide (0x80 ≤ b) && decide (b ≤ 0x8F)
  else isCont b

/-- Decode one UTF-8 sequence at the head of a byte list: returns the code
point, the consumed bytes, and the remaining bytes, or `none` when the head
is not a valid sequence. -/
def utf8Step : List Nat → Option (Nat × List Nat × List Nat)
  | [] => none
  | b :: r =>
    if b < 0x80 then some (b, [b], r)
    else if 0xC2 ≤ b ∧ b ≤ 0xDF then
      match r with
      | c1 :: r2 =>
        if isCont c1 then some ((b - 0xC0) * 0x40 + (c1 - 0x80), [b, c1], r2)
        else none
      | [] => none
    else if 0xE0 ≤ b ∧ b ≤ 0xEF then
      match r with
      | c1 :: c2 :: r3 =>
        if cont1ok b c1 && isCont c2 then
          some ((b - 0xE0) * 0x1000 + (c1 - 0x80) * 0x40 + (c2 - 0x80),
                [b, c1, c2], r3)
        else none
      | _ => none
    else if 0xF0 ≤ b ∧ b ≤ 0xF4 then
      match r with
      | c1 :: c2 :: c3 :: r4 =>
        if cont1ok b c1 && isCont c2 && isCont c3 then
          some ((b - 0xF0) * 0x40000 + (c1 - 0x80) * 0x1000 +
                (c2 - 0x80) * 0x40 + (c3 - 0x80),
                [b, c1, c2, c3], r4)
        else none
      | _ => none
    else none

/-- Fuel-indexed UTF-8 decoder; the fuel bounds the number of sequences. -/
def utf8DecodeF : Nat → List Nat → Option (List Nat)
  | _, [] => some []
  | 0, _ :: _ => none
  | fuel + 1, b :: r =>
    match utf8Step (b :: r) with
    | none => none
    | some (cp, _, rest) => (utf8DecodeF fuel rest).map (fun cs => cp :: cs)

/-- Fuel-indexed splitter into a valid UTF-8 prefix and the rest. -/
def utf8GreedyF : Nat → List Nat → List Nat × List Nat
  | _, [] => ([], [])
  | 0, b :: r => ([], b :: r)
  | fuel + 1, b :: r =>
    match utf8Step (b :: r) with
    | none => ([], b :: r)
    | some (_, con, rest) =>
      (con ++ (utf8GreedyF fuel rest).1, (utf8GreedyF fuel rest).2)

/-- Rust `str::from_utf8`, as decoded code points (`none` when invalid). -/
def utf8Decode (l : List Nat) : Option (List Nat) := utf8DecodeF l.length l

/-- Split a byte list into its maximal valid UTF-8 prefix and the rest,
which starts at the first invalid or incomplete sequence. -/
def utf8Greedy (l : List Nat) : List Nat × List Nat := utf8GreedyF l.length l

/-- Rust `Utf8Error::valid_up_to`: number of leading valid UTF-8 bytes. -/
def validUpTo (l : List Nat) : Nat := (utf8Greedy l).1.length

theorem utf8Step_some {l : List Nat} {cp : Nat} {con rest : List Nat}
    (h : utf8Step l = some (cp, con, rest)) :
    con ++ rest = l ∧ 0 < con.length := by
  match l with
  | [] => simp [utf8Step] at h
  | [b] =>
    simp only [utf8Step] at h
    split_ifs at h <;> simp at h <;> obtain ⟨rfl, rfl, rfl⟩ := h <;> simp
  | [b, c1] =>
    simp only [utf8Step] at h
    split_ifs at h <;> simp at h <;> obtain ⟨rfl, rfl, rfl⟩ := h <;> simp
  | [b, c1, c2] =>
    simp only [utf8Step] at h
    split_ifs at h <;> simp at h <;> obtain ⟨rfl, rfl, rfl⟩ := h <;> simp
  | b :: c1 :: c2 :: c3 :: r4 =>
    simp only [utf8Step] at h
    split_ifs at h <;> simp at h <;> obtain ⟨rfl, rfl, rfl⟩ := h <;> simp

theorem utf8Step_extend {l : List Nat} {cp : Nat} {con rest : List Nat}
    (h : utf8Step l = some (cp, con, rest)) (t : List Nat) :
    utf8Step (con ++ t) = some (cp, con, t) := by
  match l with
  | [] => simp [utf8Step] at h
  | [b] =>
    simp only [utf8Step] at h
    split_ifs at h <;> simp at h <;> obtain ⟨rfl, rfl, rfl⟩ := h <;>
      (simp only [utf8Step, List.cons_append, List.nil_append, Bool.and_eq_true]
       split_ifs <;> first | rfl | omega | simp_all)
  | [b, c1] =>
    simp only [utf8Step] at h
    split_ifs at h <;> simp at h <;> obtain ⟨rfl, rfl, rfl⟩ := h <;>
      (simp only [utf8Step, List.cons_append, List.nil_append, Bool.and_eq_true]
       split_ifs <;> first | rfl | omega | simp_all)
  | [b, c1, c2] =>
    simp only [utf8Step] at h
    split_ifs at h <;> simp at h <;> obtain ⟨rfl, rfl, rfl⟩ := h <;>
      (simp only [utf8Step, List.cons_append, List.nil_append, Bool.and_eq_true]
       split_ifs <;> first | rfl | omega | simp_all)
  | b :: c1 :: c2 :: c3 :: r4 =>
    simp only [utf8Step] at h
    split_ifs at h <;> simp at h <;> obtain ⟨rfl, rfl, rfl⟩ := h <;>
      (simp only [utf8Step, List.cons_append, List.nil_append, Bool.and_eq_true]
       split_ifs <;> first | rfl | omega | simp_all)

theorem utf8Step_trunc {l : List Nat} {cp : Nat} {con rest : List Nat}
    (h : utf8Step l = some (cp, con, rest)) {m : Nat} (hm : 0 < m)
    (hlt : m < con.length) : utf8Step (l.take m) = none := by
  match l with
  | [] => simp [utf8Step] at h
  | [b] =>
    simp only [utf8Step] at h
    split_ifs at h <;> simp at h <;> obtain ⟨rfl, rfl, rfl⟩ := h <;>
      simp at hlt <;> omega
  | [b, c1] =>
    simp only [utf8Step] at h
    split_ifs at h <;> simp at h <;> obtain ⟨rfl, rfl, rfl⟩ := h <;>
      simp at hlt <;>
      first
      | omega
      | (interval_cases m <;>
          (simp only [utf8Step, List.take_succ_cons, List.take_zero]
           split_ifs <;> first | rfl | omega | simp_all))
  | [b, c1, c2] =>
    simp only [utf8Step] at h
    split_ifs at h <;> simp at h <;> obtain ⟨rfl, rfl, rfl⟩ := h <;>
      simp at hlt <;>
      first
      | omega
      | (interval_cases m <;>
          (simp only [utf8Step, List.take_succ_cons, List.take_zero]
           split_ifs <;> first | rfl | omega | simp_all))
  | b :: c1 :: c2 :: c3 :: r4 =>
    simp only [utf8Step] at h
    split_ifs at h <;> simp at h <;> obtain ⟨rfl, rfl, rfl⟩ := h <;>
      simp at hlt <;>
      first
      | omega
      | (interval_cases m <;>
          (simp only [utf8Step, List.take_succ_cons, List.take_zero]
           split_ifs <;> first | rfl | omega | simp_all))

theorem utf8DecodeF_nil (f : Nat) : utf8DecodeF f [] = some [] := by
  cases f <;> rfl

theorem utf8GreedyF_nil (f : Nat) : utf8GreedyF f [] = ([], []) := by
  cases f <;> rfl

theorem utf8GreedyF_append :
    ∀ (fuel : Nat) (l : List Nat), l.length ≤ fuel →
      (utf8GreedyF fuel l).1 ++ (utf8GreedyF fuel l).2 = l := by
  intro fuel
  induction fuel with
  | zero =>
    intro l hl
    match l with
    | [] => rfl
    | b :: r => simp at hl
  | succ f ih =>
    intro l hl
    match l with
    | [] => rfl
    | b :: r =>
      rw [utf8GreedyF]
      cases hstep : utf8Step (b :: r) with
      | none => rfl
      | some v =>
        obtain ⟨cp, con, rest⟩ := v
        obtain ⟨hcr, hpos⟩ := utf8Step_some hstep
        have hlen := congrArg List.length hcr
        simp only [List.length_append, List.length_cons] at hlen
        simp only [List.length_cons] at hl
        have hrest : rest.length ≤ f := by omega
        simp only [List.append_assoc, ih rest hrest]
        exact hcr

theorem utf8DecodeF_greedy :
    ∀ (f1 : Nat) (l : List Nat), l.length ≤ f1 →
      ∀ (f2 : Nat), (utf8GreedyF f1 l).1.length ≤ f2 →
        (utf8DecodeF f2 (utf8GreedyF f1 l).1).isSome = true := by
  intro f1
  induction f1 with
  | zero =>
    intro l hl f2 hf2
    match l with
    | [] => simp [utf8GreedyF_nil, utf8DecodeF_nil]
    | b :: r => simp at hl
  | succ f ih =>
    intro l hl f2 hf2
    match l with
    | [] => simp [utf8GreedyF_nil, utf8DecodeF_nil]
    | b :: r =>
      rw [utf8GreedyF] at hf2 ⊢
      cases hstep : utf8Step (b :: r) with
      | none => simp [utf8DecodeF_nil]
      | some v =>
        obtain ⟨cp, con, rest⟩ := v
        rw [hstep] at hf2
        obtain ⟨hcr, hpos⟩ := utf8Step_some hstep
        simp only at hf2 ⊢
        have hlen := congrArg List.length hcr
        simp only [List.length_append, List.length_cons] at hlen
        simp only [List.length_cons] at hl
        cases con with
        | nil => simp at hpos
        | cons x con' =>
          simp only [List.length_append, List.length_cons] at hf2 hlen hpos
          match f2, hf2 with
          | 0, hf2 => omega
          | f2' + 1, hf2 =>
            rw [List.cons_append, utf8DecodeF]
            have hext := utf8Step_extend hstep (utf8GreedyF f rest).1
            rw [List.cons_append] at hext
            rw [hext]
            simp only [Option.isSome_map']
            exact ih rest (by omega) f2' (by omega)

theorem utf8GreedyF_max :
    ∀ (f1 : Nat) (l : List Nat), l.length ≤ f1 →
      ∀ (m f2 : Nat), (l.take m).length ≤ f2 →
        (utf8DecodeF f2 (l.take m)).isSome = true →
        ∃ t, l.take m ++ t = (utf8GreedyF f1 l).1 := by
  intro f1
  induction f1 with
  | zero =>
    intro l hl m f2 _ _
    match l with
    | [] => exact ⟨[], by simp [utf8GreedyF_nil]⟩
    | b :: r => simp at hl
  | succ f ih =>
    intro l hl m f2 hf2 hdec
    match l with
    | [] => exact ⟨[], by simp [utf8GreedyF_nil]⟩
    | b :: r =>
      match m with
      | 0 => exact ⟨(utf8GreedyF (f + 1) (b :: r)).1, by simp⟩
      | m' + 1 =>
        rw [utf8GreedyF]
        simp only [List.take_succ_cons, List.length_cons] at hdec hf2
        cases hstep : utf8Step (b :: r) with
        | none =>
          exfalso
          match f2, hf2 with
          | f2' + 1, hf2 =>
            rw [utf8DecodeF] at hdec
            cases hstep2 : utf8Step (b :: r.take m') with
            | none => rw [hstep2] at hdec; simp at hdec
            | some w =>
              obtain ⟨cp2, con2, rest2⟩ := w
              obtain ⟨hcr2, hpos2⟩ := utf8Step_some hstep2
              have hsplit : b :: r = con2 ++ (rest2 ++ r.drop m') := by
                rw [← List.append_assoc, hcr2]
                simp [List.take_append_drop]
              rw [hsplit, utf8Step_extend hstep2 (rest2 ++ r.drop m')] at hstep
              simp at hstep
        | some v =>
          obtain ⟨cp, con, rest⟩ := v
          simp only
          obtain ⟨hcr, hpos⟩ := utf8Step_some hstep
          by_cases hm : m' + 1 < con.length
          · exfalso
            have htr := utf8Step_trunc hstep (Nat.succ_pos m') hm
            simp only [List.take_succ_cons] at htr
            match f2, hf2 with
            | f2' + 1, hf2 =>
              rw [utf8DecodeF, htr] at hdec
              simp at hdec
          · have htake : b :: r.take m' = con ++ rest.take (m' + 1 - con.length) := by
              have h0 : b :: r.take m' = (b :: r).take (m' + 1) := by
                simp [List.take_succ_cons]
              rw [h0, ← hcr, List.take_append_eq_append_take,
                  List.take_of_length_le (by omega)]
            rw [htake] at hdec
            have hlen := congrArg List.length hcr
            simp only [List.length_append, List.length_cons] at hlen
            simp only [List.length_cons] at hl
            cases con with
            | nil => simp at hpos
            | cons x con' =>
              simp only [List.length_cons] at hlen
              match f2, hf2 with
              | 0, hf2 => omega
              | f2' + 1, hf2 =>
                rw [List.cons_append, utf8DecodeF,
                    (by rw [List.cons_append] :
                      utf8Step (x :: (con' ++ rest.take (m' + 1 - (x :: con').length))) =
                      utf8Step ((x :: con') ++ rest.take (m' + 1 - (x :: con').length))),
                    utf8Step_extend hstep _] at hdec
                simp only [Option.isSome_map'] at hdec
                obtain ⟨t, ht⟩ := ih rest (by omega) (m' + 1 - (x :: con').length) f2'
                  (by
                    have h4 := congrArg List.length htake
                    simp only [List.length_append, List.length_cons] at h4 ⊢
                    omega) hdec
                exact ⟨t, by rw [List.take_succ_cons, htake, List.append_assoc, ht]⟩

theorem utf8Greedy_append (l : List Nat) :
    (utf8Greedy l).1 ++ (utf8Greedy l).2 = l :=
  utf8GreedyF_append l.length l le_rfl

theorem utf8Decode_greedy_isSome (l : List Nat) :
    (utf8Decode (utf8Greedy l).1).isSome = true :=
  utf8DecodeF_greedy l.length l le_rfl (utf8Greedy l).1.length le_rfl

theorem utf8Greedy_max (l : List Nat) (m : Nat)
    (h : (utf8Decode (l.take m)).isSome = true) :
    ∃ t, l.take m ++ t = (utf8Greedy l).1 :=
  utf8GreedyF_max l.length l le_rfl m (l.take m).length le_rfl h

theorem take_validUpTo (l : List Nat) :
    l.take (validUpTo l) = (utf8Greedy l).1 := by
  have h := utf8Greedy_append l
  calc l.take (validUpTo l)
      = ((utf8Greedy l).1 ++ (utf8Greedy l).2).take (utf8Greedy l).1.length := by
        rw [h]; rfl
    _ = (utf8Greedy l).1 := List.take_left _ _

/-! ## Charset Transcoder (util.rs, `PetString`) -/

/-- util.rs `PetString::asc2pet`. -/
def asc2pet (a : Nat) : Nat :=
  if 0x41 ≤ a ∧ a ≤ 0x5A then a + 0x80
  else if 0x61 ≤ a ∧ a ≤ 0x7A then a - 0x20
  else if 0x7B ≤ a ∧ a ≤ 0x7F then a + 0x60
  else a

/-- util.rs `PetString::pet2asc`; the Rust match is on `p as char`, so the
arms are the code points of the ranges a-z, A-Z, Á-Ú and of Þ. -/
def pet2asc (p : Nat) : Nat :=
  if 0x61 ≤ p ∧ p ≤ 0x7A then p - 0x20
  else if 0x41 ≤ p ∧ p ≤ 0x5A then p + 0x20
  else if 0xC1 ≤ p ∧ p ≤ 0xDA then p - 0x80
  else if p = 0xDE then p - 0x60
  else p

/-- util.rs `PetString::to_pet`: each char of the input string is
truncated to a byte (`c as u8`) and mapped through `asc2pet`. -/
def to_pet (a : String) : List Nat :=
  a.data.map (fun c => asc2pet (c.toNat % 0x100))

/-- util.rs `PetString::from_pet`: map each native byte through `pet2asc`. -/
def from_pet (p : List Nat) : List Nat := p.map pet2asc

/-- util.rs `impl From<PetString> for String`, modelled on byte lists:
decode the `from_pet` output as UTF-8 (to code points); on failure
truncate at `valid_up_to` and decode the prefix.  The Rust `unwrap` in
that second branch is modelled by `Option`: a `none` result is the panic. -/
def fromNativeImpl (p : List Nat) : Option (List Nat) :=
  match utf8Decode (from_pet p) with
  | some s => some s
  | none => utf8Decode ((from_pet p).take (validUpTo (from_pet p)))

/-! ## Command Encoder and Local Channel Client (main.rs) -/

def EXEC_CMD : Nat := 0
def GO_CMD : Nat := 1
def LOAD_CMD : Nat := 2
def DIR_CMD : Nat := 3
def CATALOG_CMD : Nat := 4
def DRIVES_CMD : Nat := 5
def MOUNT_CMD : Nat := 6
def ASSIGN_CMD : Nat := 7

/-- main.rs `shell`: the command string built by `format!`. -/
def shell (cmd : Nat) (args : String) (proc : Nat) : String :=
  "sys.shell(" ++ toString cmd ++ ", \"" ++ args ++ "\", " ++ toString proc ++ ")"

/-- main.rs `luasend`, sending side: the bytes written to the socket are
the message followed by exactly one newline byte. -/
def luasendWire (message : String) : String := message ++ "\n"

/-- main.rs `luasend`, receiving side, as a function of the response
bytes `r` (lines 114-118).  `.ok (some m)` means `Ok(())` is returned to
the caller after printing the error message with code points `m` (decoded
by plain `str::from_utf8`) to stderr; `.ok none` is `Ok(())` with nothing
printed; `.error ()` models the `?` on a failed `str::from_utf8`. -/
def luasendResp : List Nat → Except Unit (Option (List Nat))
  | [] => .ok none
  | b :: rest =>
    if 0 < b then
      match utf8Decode rest with
      | some m => .ok (some m)
      | none => .error ()
    else .ok none

/-! ## File names (Rust `Path::extension` and `str::to_lowercase`)

The model covers ASCII path names: `strToLower` agrees with Rust
`str::to_lowercase` on ASCII strings.
-/

/-- Rust `str::to_lowercase`, modelled for ASCII characters. -/
def strToLower (s : String) : String :=
  ⟨s.data.map (fun c =>
    if 'A' ≤ c ∧ c ≤ 'Z' then Char.ofNat (c.toNat + 0x20) else c)⟩

/-- The final path component: the characters after the last slash,
with trailing slashes stripped as Rust `Path::file_name` does. -/
def rustFileName (s : List Char) : List Char :=
  ((s.reverse.dropWhile (fun c => c = '/')).takeWhile (fun c => c ≠ '/')).reverse

/-- Rust `Path::new(name).extension()`: the part of the file name after
its last dot; `none` when there is no dot, when the only dot leads the
name (hidden file), or for `..`. -/
def rustExtension (name : String) : Option String :=
  let f := rustFileName name.data
  if f = ['.', '.'] then none
  else
    let r := f.reverse
    match r.findIdx? (fun c => c = '.') with
    | none => none
    | some i => if i + 1 = r.length then none else some ⟨(r.take i).reverse⟩

/-! ## Content Dispatcher (main.rs `meta`, `ultiload`, `ultimount`;
c64ultimate.rs has byte-identical copies as `C64Ultimate::meta`,
`C64Ultimate::load`, `C64Ultimate::mount`)

Files are modelled by their contents as byte lists.  A returned `.ok url`
means the POST to that endpoint is performed with the file's raw bytes; a
returned `.error msg` is the `bail!` with that message, before any POST.
-/

/-- main.rs `meta`: file size and the little-endian 16-bit load address
from the file's first two bytes; `.error` is the `read_exact` failure on
a file shorter than two bytes. -/
def meta : List Nat → Except String (Nat × Nat)
  | b0 :: b1 :: rest => .ok (rest.length + 2, b0 + 0x100 * b1)
  | _ => .error "failed to fill whole buffer"

/-- main.rs `ultiload` (lines 170-209), up to endpoint resolution: the
file is read by `meta` unconditionally, then the lower-cased extension
selects the endpoint; the size check applies only in the no-extension and
prg arms. -/
def ultiload (filenm : String) (contents : List Nat) : Except String String :=
  match meta contents with
  | .error e => .error e
  | .ok (size, start) =>
    match rustExtension (strToLower filenm) with
    | none =>
      if size + start < 65536 then .ok "/v1/runners:run_prg"
      else .error "PRG file is too large"
    | some e =>
      if e = "crt" then .ok "/v1/runners:run_crt"
      else if e = "sid" then .ok "/v1/runners:sidplay"
      else if e = "mod" then .ok "/v1/runners:modplay"
      else if e = "prg" then
        if size + start < 65536 then .ok "/v1/runners:run_prg"
        else .error "PRG file is too large"
      else .error "File extension not recognized"

/-- main.rs `ultimount` (lines 211-233), up to endpoint resolution. -/
def ultimount (device : String) (dimage : String) : Except String String :=
  match rustExtension (strToLower dimage) with
  | none => .error "Unrecognized disk image file type/"
  | some e =>
    if e = "d64" ∨ e = "g64" ∨ e = "d71" ∨ e = "g71" ∨ e = "d81" then
      .ok ("/v1/drives/" ++ device ++ "mount?type=" ++ e)
    else .error "Unrecognized disk image file type/"

/-! ## Discovery Protocol (c64ultimate.rs `C64Ultimate::detect`) -/

/-- The code points of a string. -/
def strCps (s : String) : List Nat := s.data.map Char.toNat

/-- Rust `char::is_whitespace` (the Unicode White_Space code points). -/
def isRustWs (c : Nat) : Bool :=
  c == 0x9 || c == 0xA || c == 0xB || c == 0xC || c == 0xD || c == 0x20 ||
  c == 0x85 || c == 0xA0 || c == 0x1680 ||
  (decide (0x2000 ≤ c) && decide (c ≤ 0x200A)) ||
  c == 0x2028 || c == 0x2029 || c == 0x202F || c == 0x205F || c == 0x3000

/-- Rust `char::is_ascii_digit`. -/
def isAsciiDigit (c : Nat) : Bool := decide (0x30 ≤ c) && decide (c ≤ 0x39)

/-- Whether `p` is an initial segment of `l`. -/
def startsWith : List Nat → List Nat → Bool
  | [], _ => true
  | _ :: _, [] => false
  | p :: ps, a :: bs => p == a && startsWith ps bs

/-- Index of the first occurrence of `pat` as a contiguous sublist. -/
def findSub (pat : List Nat) : List Nat → Option Nat
  | [] => if pat.isEmpty then some 0 else none
  | a :: r =>
    if startsWith pat (a :: r) then some 0
    else (findSub pat r).map (fun i => i + 1)

/-- Rust `s.split(pat).nth(1)`: the segment after the first occurrence of
`pat`, truncated at the next occurrence; `none` when `pat` does not
occur. -/
def splitNth1 (pat l : List Nat) : Option (List Nat) :=
  match findSub pat l with
  | none => none
  | some i =>
    let r := l.drop (i + pat.length)
    match findSub pat r with
    | none => some r
    | some j => some (r.take j)

def ultiMarker : List Nat := strCps "C64 Ultimate"

/-- c64ultimate.rs `C64Ultimate::detect`, the reply-validity parse chain
(lines 170-176), over the payload's code points. -/
def detectValid (payload : List Nat) : Bool :=
  match splitNth1 ultiMarker payload with
  | none => false
  | some seg =>
    match splitNth1 [0x29] seg with
    | none => false
    | some seg2 =>
      let t := seg2.dropWhile isRustWs
      let tok := t.takeWhile (fun c => !(isRustWs c))
      !tok.isEmpty && tok.all (fun c => isAsciiDigit c || c == 0x2E)

/-- c64ultimate.rs `C64Ultimate::detect` (lines 145-183) as a function of
the socket outcome: `none` models any bind/send/receive error or timeout;
`some (buf, srcIp)` is the one received datagram, with payload bytes
`buf`, from transport-layer source address `srcIp`. -/
def detect (recv : Option (List Nat × String)) : Option String :=
  match recv with
  | none => none
  | some (buf, srcIp) =>
    match utf8Decode buf with
    | none => none
    | some payload => if detectValid payload then some srcIp else none

/-- The spec's reply-validity wording, stated independently of the code:
the payload contains the marker, followed eventually by a closing
parenthesis, after which the next whitespace-separated token is nonempty
and consists only of ASCII digits and dots. -/
def specDiscoveryValid (payload : List Nat) : Prop :=
  ∃ a b c d : List Nat,
    payload = a ++ ultiMarker ++ b ∧ b = c ++ [0x29] ++ d ∧
    (let tok := (d.dropWhile isRustWs).takeWhile (fun x => !(isRustWs x))
     tok ≠ [] ∧ tok.all (fun ch => isAsciiDigit ch || ch == 0x2E) = true)

/-! ## CLI dispatch of Ultimate commands (main.rs `main`, lines 250-282)
and the `C64Ultimate` constructor (c64ultimate.rs, lines 51-60) -/

/-- The CLI subcommands (main.rs `Syscommands`). -/
inductive UCommand where
  | go (app : String)
  | load (prg : String)
  | exec (cmd : String) (args : List String)
  | dir (dev : String)
  | catalog (dev : String)
  | drives (dev : Option String)
  | mount (dev : String) (dimage : String)
  | assign (dev : String) (path : String)
  | reboot
  | stop

/-- The REST operation main performs for a `-u` (Ultimate) command. -/
inductive UltiDispatch where
  | load (ip : String) (prg : String)
  | mount (ip : String) (dev : String) (dimage : String)
  | drives (ip : String) (dev : Option String)

/-- main.rs lines 250-282: dispatch of a command when the `-u` flag is
given.  `envIp` is `C64_ULTIMATE_IP` (`none` when unset) and
`detectResult` is what the Discovery Protocol would return; main.rs never
invokes discovery (it does not declare or use the `c64ultimate` module),
so the result does not depend on `detectResult`. -/
def mainUltimate (envIp : Option String) (detectResult : Option String)
    (cmd : UCommand) : Except String UltiDispatch :=
  match envIp with
  | some ip =>
    match cmd with
    | .load prg => .ok (.load ip prg)
    | .mount dev dimage => .ok (.mount ip dev dimage)
    | .drives dev => .ok (.drives ip dev)
    | _ => .error "Command not supported for the C64 Ultimate"
  | none => .error "C64 Ultimate loads require $C64_ULTIMATE_IP set!"

/-- c64ultimate.rs `C64Ultimate::new` (lines 51-60): the environment
override short-circuits discovery entirely; otherwise the detect result
is used.  This constructor is not invoked by main.rs. -/
def c64UltimateNew (envIp : Option String) (detectResult : Option String) :
    Option String :=
  match envIp with
  | some v => some v
  | none => detectResult

/-! ## Drives listing (main.rs `main`, Drives branch, lines 258-276) -/

/-- main.rs `Device`: deserialized drive settings. -/
structure Device where
  enabled : Bool
  bus_id : Nat
  device_type : Option String
  rom : Option String
  image_file : Option String
  image_path : Option String

/-- main.rs `DriveEntry`: the flattened map, as an association list (the
`HashMap` iteration order is arbitrary; `into_iter().next()` is modelled
as the head). -/
structure DriveEntry where
  devices : List (String × Device)

/-- main.rs `UltiDrives`. -/
structure UltiDrives where
  drives : List DriveEntry

/-- One iteration of the Drives loop: `none` models a panic (`unwrap` on
`None`); `some none` prints nothing (multi-letter slot key); `some (some
line)` prints `line`. -/
def driveLine (e : DriveEntry) : Option (Option String) :=
  match e.devices with
  | [] => none
  | (drive, settings) :: _ =>
    if drive.length = 1 then
      if settings.enabled then
        match settings.image_file with
        | none => none
        | some f => some (some (drive ++ ":=" ++ f))
      else some (some (drive ++ ":=<Disabled>"))
    else some none

/-- The lines printed for one deserialized drives response, or `none`
when the loop panics. -/
def driveLines : List DriveEntry → Option (List String)
  | [] => some []
  | e :: rest =>
    match driveLine e with
    | none => none
    | some none => driveLines rest
    | some (some line) => (driveLines rest).map (fun ls => line :: ls)

/-- main.rs Drives branch (lines 258-276). -/
def drivesBranch (u : UltiDrives) : Option (List String) :=
  driveLines u.drives

/-- The shell-dispatched command kinds (the `sys.shell` wire contract). -/
inductive ShellCommand where
  | exec | go | load | dir | catalog | drives | mount | assign

/-- The id main.rs passes to `shell` for each kind (lines 338-373). -/
def cmdId : ShellCommand → Nat
  | .exec => EXEC_CMD
  | .go => GO_CMD
  | .load => LOAD_CMD
  | .dir => DIR_CMD
  | .catalog => CATALOG_CMD
  | .drives => DRIVES_CMD
  | .mount => MOUNT_CMD
  | .assign => ASSIGN_CMD

/-! ## Claims -/

/-- C1 counterexample: a local-channel response with nonzero first byte
0x01 followed by the single byte 0x41.  `luasend` prints the plain-UTF-8
decoding (code point 0x41, `A`) to stderr and returns success to its
caller, whereas the Charset Transcoder decoding of the same remaining
byte is code point 0x61 (`a`): the claim fails both on the status
reported to the caller and on the decoding used for the message. -/
theorem C1_counterexample :
    luasendResp [1, 0x41] = .ok (some [0x41]) ∧
    fromNativeImpl [0x41] = some [0x61] ∧ [0x41] ≠ ([0x61] : List Nat) :=
  ⟨rfl, rfl, by decide⟩

/-- C1 amended: when the response's first byte is nonzero, `luasend`
prints the remaining bytes decoded through plain UTF-8 to stderr and
still returns success to its caller; only when those bytes are not valid
UTF-8 does it return an error (the propagated decode error).  The Charset
Transcoder is not involved. -/
theorem C1_amended :
    luasendResp [] = .ok none ∧
    (∀ rest : List Nat, luasendResp (0 :: rest) = .ok none) ∧
    (∀ (b : Nat) (rest : List Nat), 0 < b →
      ((luasendResp (b :: rest) = .error ()) ↔ utf8Decode rest = none) ∧
      (∀ m : List Nat,
        luasendResp (b :: rest) = .ok (some m) ↔ utf8Decode rest = some m)) := by
  refine ⟨rfl, fun rest => rfl, fun b rest hb => ?_⟩
  simp only [luasendResp, if_pos hb]
  cases hd : utf8Decode rest with
  | none => simp
  | some m0 => simp

/-- C1 amended, witness at the response `[0x01, 0x41]`. -/
theorem C1_amended_witness :
    ((luasendResp [1, 0x41] = .error ()) ↔ utf8Decode [0x41] = none) ∧
    (∀ m : List Nat,
      luasendResp [1, 0x41] = .ok (some m) ↔ utf8Decode [0x41] = some m) :=
  C1_amended.2.2 1 [0x41] (by decide)

/-- C2 counterexample: a one-byte `.crt` file.  The dispatch layer reads
the file's first two bytes unconditionally (`meta` is called before the
extension is inspected), so the load fails with the read error instead of
reaching the CRT endpoint. -/
theorem C2_counterexample :
    ultiload "a.crt" [0] = .error "failed to fill whole buffer" := rfl

/-- C2 amended: the size/address read is performed for every load
request, so a file shorter than two bytes is rejected with a read error
whatever its extension; for files of at least two bytes, a crt/sid/mod
extension reaches its dedicated endpoint with no size check applied. -/
theorem C2_amended :
    (∀ (name : String) (contents : List Nat), contents.length < 2 →
      ultiload name contents = .error "failed to fill whole buffer") ∧
    (∀ (name : String) (b0 b1 : Nat) (rest : List Nat),
      rustExtension (strToLower name) = some "crt" →
      ultiload name (b0 :: b1 :: rest) = .ok "/v1/runners:run_crt") ∧
    (∀ (name : String) (b0 b1 : Nat) (rest : List Nat),
      rustExtension (strToLower name) = some "sid" →
      ultiload name (b0 :: b1 :: rest) = .ok "/v1/runners:sidplay") ∧
    (∀ (name : String) (b0 b1 : Nat) (rest : List Nat),
      rustExtension (strToLower name) = some "mod" →
      ultiload name (b0 :: b1 :: rest) = .ok "/v1/runners:modplay") := by
  refine ⟨?_, ?_, ?_, ?_⟩
  · intro name contents h
    match contents with
    | [] => rfl
    | [b] => rfl
    | b0 :: b1 :: rest => simp at h; omega
  · intro name b0 b1 rest h
    simp [ultiload, meta, h]
  · intro name b0 b1 rest h
    simp [ultiload, meta, h]
  · intro name b0 b1 rest h
    simp [ultiload, meta, h]

/-- C2 amended, witness: a two-byte `.crt` file is dispatched to the CRT
endpoint (and the one-byte case is the counterexample above). -/
theorem C2_amended_witness :
    ultiload "a.crt" [0, 0] = .ok "/v1/runners:run_crt" ∧
    ultiload "tune.SID" [0, 0] = .ok "/v1/runners:sidplay" ∧
    ultiload "song.mod" [0, 0] = .ok "/v1/runners:modplay" :=
  ⟨C2_amended.2.1 "a.crt" 0 0 [] (by decide),
   C2_amended.2.2.1 "tune.SID" 0 0 [] (by decide),
   C2_amended.2.2.2 "song.mod" 0 0 [] (by decide)⟩

/-- C3 counterexample: with no override set and a device discoverable on
the LAN (discovery would return 192.168.1.64), main fails outright
instead of triggering the Discovery Protocol to obtain an address. -/
theorem C3_counterexample :
    mainUltimate none (some "192.168.1.64") (.load "demo.prg") =
      .error "C64 Ultimate loads require $C64_ULTIMATE_IP set!" := rfl

/-- C3 amended: a configured `C64_ULTIMATE_IP` short-circuits discovery
entirely and its value addresses every Ultimate operation; but when no
override is supplied, main fails outright with an error, independent of
what discovery would find.  The override-else-discovery behavior exists
only in the `C64Ultimate::new` constructor, which main.rs does not
invoke. -/
theorem C3_amended :
    (∀ (ip : String) (d : Option String) (prg : String),
      mainUltimate (some ip) d (.load prg) = .ok (.load ip prg)) ∧
    (∀ (ip : String) (d : Option String) (dev dimage : String),
      mainUltimate (some ip) d (.mount dev dimage) =
        .ok (.mount ip dev dimage)) ∧
    (∀ (ip : String) (d : Option String) (dev : Option String),
      mainUltimate (some ip) d (.drives dev) = .ok (.drives ip dev)) ∧
    (∀ (d d2 : Option String) (cmd : UCommand),
      mainUltimate none d cmd = mainUltimate none d2 cmd ∧
      mainUltimate none d cmd =
        .error "C64 Ultimate loads require $C64_ULTIMATE_IP set!") ∧
    (∀ d : Option String, c64UltimateNew none d = d) ∧
    (∀ (v : String) (d : Option String), c64UltimateNew (some v) d = some v) :=
  ⟨fun _ _ _ => rfl, fun _ _ _ _ => rfl, fun _ _ _ => rfl,
   fun _ _ _ => ⟨rfl, rfl⟩, fun _ => rfl, fun _ _ => rfl⟩

/-- C4: for a load request whose lower-cased file name has no extension
or extension prg, on a file with at least the two header bytes, the
request is rejected with the "too large" error exactly when the file size
plus the little-endian 16-bit load address from the first two bytes
reaches 65536; otherwise the PRG-run endpoint is selected. -/
theorem C4_prg_size_check (name : String) (b0 b1 : Nat) (rest : List Nat)
    (hext : rustExtension (strToLower name) = none ∨
            rustExtension (strToLower name) = some "prg") :
    (ultiload name (b0 :: b1 :: rest) = .error "PRG file is too large" ↔
      65536 ≤ (rest.length + 2) + (b0 + 0x100 * b1)) ∧
    ((rest.length + 2) + (b0 + 0x100 * b1) < 65536 →
      ultiload name (b0 :: b1 :: rest) = .ok "/v1/runners:run_prg") := by
  obtain h | h := hext <;>
    by_cases hlt : (rest.length + 2) + (b0 + 0x100 * b1) < 65536 <;>
    simp [ultiload, meta, h, hlt] <;> omega

/-- C4 witness: a prg file with load address 0x0801 and size 2 goes to
the PRG endpoint; one with address 0xFFF0 and size 16 is rejected. -/
theorem C4_witness :
    ultiload "game.prg" [1, 8] = .ok "/v1/runners:run_prg" ∧
    ultiload "game.prg" (0xF0 :: 0xFF :: List.replicate 14 0) =
      .error "PRG file is too large" :=
  ⟨(C4_prg_size_check "game.prg" 1 8 [] (Or.inr (by decide))).2
      (by norm_num [List.length_nil]),
   (C4_prg_size_check "game.prg" 0xF0 0xFF (List.replicate 14 0)
      (Or.inr (by decide))).1.mpr
    (by norm_num [List.length_replicate])⟩

/-- C5 counterexample: the payload `C64 Ultimate x C64 Ultimate ) 3.14`
satisfies the spec's acceptance description (it contains the marker,
followed eventually by a closing parenthesis, followed by the
digits-and-dots token `3.14`), yet the code rejects it and `detect`
returns no address: the parse only searches the segment between the first
and second marker occurrences, which contains no parenthesis. -/
theorem C5_counterexample :
    specDiscoveryValid (strCps "C64 Ultimate x C64 Ultimate ) 3.14") ∧
    detectValid (strCps "C64 Ultimate x C64 Ultimate ) 3.14") = false ∧
    detect (some (strCps "C64 Ultimate x C64 Ultimate ) 3.14", "10.0.0.64")) =
      none :=
  ⟨⟨strCps "C64 Ultimate x ", strCps " ) 3.14", strCps " ", strCps " 3.14",
    by decide, by decide, by decide, by decide⟩, by decide, rfl⟩

/-- C5 amended: a reply is accepted exactly when its payload decodes as
UTF-8 and the segment strictly between the first and second occurrences
of `C64 Ultimate` contains a `)` such that the first whitespace-separated
token of the sub-segment between that `)` and the next `)` is nonempty
and consists only of ASCII digits and `.`; on acceptance `detect` returns
the transport-layer sender address and never any other value, and on
decode failure, socket error or timeout it returns no result.  Pinned on
the spec's two example payloads. -/
theorem C5_amended :
    (∀ (buf : List Nat) (ip : String),
      detect (some (buf, ip)) = none ∨ detect (some (buf, ip)) = some ip) ∧
    detect none = none ∧
    (∀ ip : String,
      detect (some (strCps "*** C64 Ultimate (V1.47) 3.14 ***", ip)) =
        some ip) ∧
    (∀ ip : String, detect (some ([0xFF], ip)) = none) ∧
    (∀ ip : String, detect (some (strCps "*** Something Else ***", ip)) = none) := by
  refine ⟨fun buf ip => ?_, rfl, fun ip => rfl, fun ip => rfl, fun ip => rfl⟩
  cases hd : utf8Decode buf with
  | none => exact Or.inl (by simp [detect, hd])
  | some payload =>
    by_cases h : detectValid payload
    · exact Or.inr (by simp [detect, hd, h])
    · exact Or.inl (by simp [detect, hd, h])

/-- C6: the shell command kinds map to the stable ids 0-7, the encoder
produces exactly the `sys.shell(<id>, "<arg>", <pid>)` textual form
(pinned on the Dir example), and exactly one newline byte is appended
when the message is sent. -/
theorem C6_encoder :
    (cmdId .exec = 0 ∧ cmdId .go = 1 ∧ cmdId .load = 2 ∧ cmdId .dir = 3 ∧
     cmdId .catalog = 4 ∧ cmdId .drives = 5 ∧ cmdId .mount = 6 ∧
     cmdId .assign = 7) ∧
    (∀ (k : ShellCommand) (args : String) (proc : Nat),
      shell (cmdId k) args proc =
        "sys.shell(" ++ toString (cmdId k) ++ ", \"" ++ args ++ "\", " ++
          toString proc ++ ")") ∧
    shell DIR_CMD "0:" 1234 = "sys.shell(3, \"0:\", 1234)" ∧
    (∀ message : String, luasendWire message = message ++ "\n") :=
  ⟨⟨rfl, rfl, rfl, rfl, rfl, rfl, rfl, rfl⟩, fun _ _ _ => rfl, by decide,
   fun _ => rfl⟩

/-- C7: the standard-to-native mapping is exactly the three affine ranges
(0x41-0x5A add 0x80, 0x61-0x7A subtract 0x20, 0x7B-0x7F add 0x60, every
other byte unchanged), and `to_native` sends `A` to 0xC1 and `a` to
0x41. -/
theorem C7_to_native :
    (∀ b : Fin 256,
      asc2pet b.val =
        if 0x41 ≤ b.val ∧ b.val ≤ 0x5A then b.val + 0x80
        else if 0x61 ≤ b.val ∧ b.val ≤ 0x7A then b.val - 0x20
        else if 0x7B ≤ b.val ∧ b.val ≤ 0x7F then b.val + 0x60
        else b.val) ∧
    to_pet "A" = [0xC1] ∧ to_pet "a" = [0x41] :=
  ⟨fun _ => rfl, by decide, by decide⟩

/-- C8: decoding native bytes to a standard string never panics: a result
is always produced; when the per-byte-decoded sequence is not valid UTF-8
the result decodes the sequence truncated at `valid_up_to`, and that
truncation is the longest decodable prefix (every decodable take is an
initial segment of it), so the failure branch after truncation (the
`unwrap`) is unreachable. -/
theorem C8_from_native_total (p : List Nat) :
    (fromNativeImpl p).isSome = true ∧
    (utf8Decode (from_pet p) = none →
      fromNativeImpl p =
        utf8Decode ((from_pet p).take (validUpTo (from_pet p)))) ∧
    (∀ m : Nat, (utf8Decode ((from_pet p).take m)).isSome = true →
      ∃ t, (from_pet p).take m ++ t =
        (from_pet p).take (validUpTo (from_pet p))) := by
  refine ⟨?_, ?_, ?_⟩
  · unfold fromNativeImpl
    cases hd : utf8Decode (from_pet p) with
    | some s => rfl
    | none =>
      simp only
      rw [take_validUpTo]
      exact utf8Decode_greedy_isSome (from_pet p)
  · intro h
    unfold fromNativeImpl
    rw [h]
  · intro m hm
    rw [take_validUpTo]
    exact utf8Greedy_max (from_pet p) m hm

/-- C8 witness at native bytes [0x41, 0xFF]: the decoded bytes
[0x61, 0xFF] are invalid UTF-8, the truncation branch is taken, and the
maximality instance at the one-byte take holds. -/
theorem C8_witness :
    fromNativeImpl [0x41, 0xFF] =
      utf8Decode ((from_pet [0x41, 0xFF]).take
        (validUpTo (from_pet [0x41, 0xFF]))) ∧
    (∃ t, (from_pet [0x41, 0xFF]).take 1 ++ t =
      (from_pet [0x41, 0xFF]).take (validUpTo (from_pet [0x41, 0xFF]))) :=
  ⟨(C8_from_native_total [0x41, 0xFF]).2.1 (by decide),
   (C8_from_native_total [0x41, 0xFF]).2.2 1 (by decide)⟩

/-- C9: mount resolution succeeds exactly for the five disk-image
extensions (case-insensitively), producing the endpoint that embeds the
device identifier and the lower-cased extension as the query parameter;
a missing or any other extension is rejected before any POST.  Pinned on
`image.D64` (accepted, lower-cased) and `image.iso` (rejected). -/
theorem C9_mount :
    (∀ device dimage : String,
      match rustExtension (strToLower dimage) with
      | none =>
        ultimount device dimage = .error "Unrecognized disk image file type/"
      | some e =>
        if e = "d64" ∨ e = "g64" ∨ e = "d71" ∨ e = "g71" ∨ e = "d81" then
          ultimount device dimage =
            .ok ("/v1/drives/" ++ device ++ "mount?type=" ++ e)
        else
          ultimount device dimage =
            .error "Unrecognized disk image file type/") ∧
    ultimount "a" "image.D64" = .ok "/v1/drives/amount?type=d64" ∧
    ultimount "a" "image.iso" = .error "Unrecognized disk image file type/" := by
  refine ⟨fun device dimage => ?_, rfl, rfl⟩
  unfold ultimount
  cases rustExtension (strToLower dimage) with
  | none => rfl
  | some e =>
    by_cases h : e = "d64" ∨ e = "g64" ∨ e = "d71" ∨ e = "g71" ∨ e = "d81" <;>
      simp [h]

/-- C10: the drives listing assumes every entry's device map is non-empty
and every enabled single-letter drive has an image file: an entry with an
empty map, or an enabled drive `a` without `image_file`, makes the loop
panic (`unwrap` on `None`, modelled by `none`), while conforming input
produces the listing. -/
theorem C10_drives_panic :
    drivesBranch ⟨[⟨[]⟩]⟩ = none ∧
    drivesBranch ⟨[⟨[("a", ⟨true, 8, none, none, none, none⟩)]⟩]⟩ = none ∧
    drivesBranch ⟨[⟨[("a", ⟨true, 8, none, none, some "game.d64", none⟩)]⟩,
                   ⟨[("b", ⟨false, 9, none, none, none, none⟩)]⟩]⟩ =
      some ["a:=game.d64", "b:=<Disabled>"] :=
  ⟨rfl, rfl, rfl⟩
